import Mathlib

/-!
Shallow embedding of the Pong simulation core (src/main.rs) over ℚ.

The source works on f32; here every coordinate, angle and distance is a
rational number, and the trigonometric functions consumed by the ball
motion step are abstract parameters cosf, sinf : ℚ → ℚ, with the constant
π likewise a parameter pi : ℚ, because every claim under verification is
about the arithmetic and control structure of the systems, never about a
trigonometric identity.  Randomness (rand::thread_rng) is modelled as a
list of uniform samples in [0, 1) consumed in order: gen_bool(0.5) reads
one sample and tests it against 1/2, gen_range(lo..hi) reads one sample u
and returns lo + u * (hi - lo), matching the half-open range semantics.
-/

namespace Pong

/-- TABLE_SIZE[0] = 1400 (arena width). -/
def TABLE_SIZE_X : ℚ := 1400

/-- TABLE_SIZE[1] = 700 (arena height). -/
def TABLE_SIZE_Y : ℚ := 700

/-- PADDLE_LENGTH = 100. -/
def PADDLE_LENGTH : ℚ := 100

/-- PADDLE_WIDTH = 20. -/
def PADDLE_WIDTH : ℚ := 20

/-- PADDLE_SPEED = 5. -/
def PADDLE_SPEED : ℚ := 5

/-- BALL_RADIUS = 15. -/
def BALL_RADIUS : ℚ := 15

/-- BALL_SPEED = 6. -/
def BALL_SPEED : ℚ := 6

/-- The Side component: which player / goal line. -/
inductive Side where
  | Left
  | Right
deriving DecidableEq, Repr

/-- The transient per-tick Collision value of the source. -/
inductive Collision where
  | Left
  | Right
  | Top
  | Bottom
deriving DecidableEq, Repr

/-- The ball entity: Transform translation (x, y), BallDirection,
BallStartingPoint (startX, startY) and DistanceFromStartingPoint. -/
structure Ball where
  x : ℚ
  y : ℚ
  direction : ℚ
  startX : ℚ
  startY : ℚ
  distance : ℚ
deriving DecidableEq, Repr

/-- A paddle entity: Transform translation (x, y) and its Side.
The x coordinate is fixed by setup (-600 for Left, 600 for Right). -/
structure Paddle where
  x : ℚ
  y : ℚ
  side : Side
deriving DecidableEq, Repr

/-- Per-tick key-down state for one paddle (W/S for Left, Up/Down for
Right): both keys may be held in the same tick. -/
structure Intent where
  up : Bool
  down : Bool
deriving DecidableEq, Repr

/-- The move_paddle system, for one paddle's y coordinate: apply the held
keys at PADDLE_SPEED each, then the boundary correction, which subtracts
(or adds) one speed increment instead of clamping to the exact boundary. -/
def move_paddle_y (i : Intent) (y : ℚ) : ℚ :=
  let y1 := if i.up then y + PADDLE_SPEED else y
  let y2 := if i.down then y1 - PADDLE_SPEED else y1
  if y2 + PADDLE_LENGTH / 2 ≥ TABLE_SIZE_Y / 2 then y2 - PADDLE_SPEED
  else if y2 - PADDLE_LENGTH / 2 ≤ -(TABLE_SIZE_Y / 2) then y2 + PADDLE_SPEED
  else y2

/-- One paddle's y coordinate after a sequence of ticks, one Intent per
tick, starting from y. -/
def run_paddle (intents : List Intent) (y : ℚ) : ℚ :=
  intents.foldl (fun a i => move_paddle_y i a) y

/-- The move_ball system: increment DistanceFromStartingPoint by
BALL_SPEED, then recompute the translation parametrically from the
starting point and the direction angle. -/
def move_ball (cosf sinf : ℚ → ℚ) (b : Ball) : Ball :=
  let distance := b.distance + BALL_SPEED
  let x1 := b.startX
  let y1 := b.startY
  let x := x1 + cosf b.direction * distance
  let y := y1 + sinf b.direction * distance
  { b with x := x, y := y, distance := distance }

/-- The early-exit test of the paddle loop: is the ball already past this
paddle's far x edge (its outer face)?  A true answer reproduces the
source's break out of the whole paddle loop. -/
def pastPaddle (b : Ball) (p : Paddle) : Bool :=
  match p.side with
  | Side.Right => decide (b.x + BALL_RADIUS ≥ p.x + PADDLE_WIDTH / 2)
  | Side.Left => decide (b.x - BALL_RADIUS ≤ p.x - PADDLE_WIDTH / 2)

/-- One iteration of the paddle loop body (after the early-exit test):
first the side-face check, then the top/bottom-of-paddle check, each
updating the running collision value exactly as the source does. -/
def paddleCheck (b : Ball) (p : Paddle) (col : Option Collision) : Option Collision :=
  let col1 :=
    if b.y - BALL_RADIUS ≤ p.y + PADDLE_LENGTH / 2 ∧
        b.y + BALL_RADIUS ≥ p.y - PADDLE_LENGTH / 2 then
      match p.side with
      | Side.Right =>
          if b.x + BALL_RADIUS ≥ p.x - PADDLE_WIDTH / 2 then some Collision.Right else col
      | Side.Left =>
          if b.x - BALL_RADIUS ≤ p.x + PADDLE_WIDTH / 2 then some Collision.Left else col
    else col
  if b.x + BALL_RADIUS ≥ p.x - PADDLE_WIDTH / 2 ∧
      b.x - BALL_RADIUS ≤ p.x + PADDLE_WIDTH / 2 then
    if b.y - BALL_RADIUS ≤ p.y + PADDLE_LENGTH / 2 ∧
        b.y - BALL_RADIUS ≥ p.y + PADDLE_LENGTH / 2 - (BALL_SPEED + PADDLE_SPEED) / 2 then
      some Collision.Top
    else if b.y + BALL_RADIUS ≥ p.y - PADDLE_LENGTH / 2 ∧
        b.y - BALL_RADIUS ≤ p.y - PADDLE_LENGTH / 2 + (BALL_SPEED + PADDLE_SPEED) / 2 then
      some Collision.Bottom
    else col1
  else col1

/-- The paddle loop of the collision system: iterate the paddles in query
order, breaking out (and keeping the running collision value) as soon as
the ball is past one paddle's far edge. -/
def paddleScan (b : Ball) : List Paddle → Option Collision → Option Collision
  | [], col => col
  | p :: rest, col =>
      if pastPaddle b p then col
      else paddleScan b rest (paddleCheck b p col)

/-- Collision detection: the wall tests first (Top, then Bottom), and the
paddle loop only when neither wall test matched. -/
def detectCollision (b : Ball) (paddles : List Paddle) : Option Collision :=
  let col : Option Collision :=
    if b.y + BALL_RADIUS ≥ TABLE_SIZE_Y / 2 then some Collision.Top
    else if b.y - BALL_RADIUS ≤ -(TABLE_SIZE_Y / 2) then some Collision.Bottom
    else none
  if col.isSome then col else paddleScan b paddles none

/-- The direction update on a found collision: Top/Bottom reflect as
2π − θ, Left/Right as π − θ, with no normalization of the angle. -/
def reflectDirection (pi : ℚ) (c : Collision) (d : ℚ) : ℚ :=
  match c with
  | Collision.Top => 2 * pi - d
  | Collision.Bottom => 2 * pi - d
  | Collision.Right => pi - d
  | Collision.Left => pi - d

/-- The collision system: detect, and if a collision was found reflect the
direction, move the starting point to the current translation and zero the
distance.  The translation itself is read-only here. -/
def collision_system (pi : ℚ) (b : Ball) (paddles : List Paddle) : Ball :=
  match detectCollision b paddles with
  | some c =>
      { b with
        direction := reflectDirection pi c b.direction
        startX := b.x
        startY := b.y
        distance := 0 }
  | none => b

/-- The goal-line test of the score system: which side, if any, receives a
point for the ball's current x coordinate (half-radius threshold, right
edge checked first). -/
def point_side (x : ℚ) : Option Side :=
  if x + BALL_RADIUS / 2 ≥ TABLE_SIZE_X / 2 then some Side.Right
  else if x - BALL_RADIUS / 2 ≤ 0 - TABLE_SIZE_X / 2 then some Side.Left
  else none

/-- A player record: its Side tag and its Score component. -/
structure Player where
  side : Side
  score : ℕ
deriving DecidableEq, Repr

/-- The score system: if a goal line was crossed, walk the player query,
increment each matching player's score and send one BallResetEvent per
increment.  Returns the updated players and the number of reset events
sent this tick. -/
def score_system (ballX : ℚ) (players : List Player) : List Player × ℕ :=
  match point_side ballX with
  | none => (players, 0)
  | some ps =>
      players.foldr
        (fun pl acc =>
          if pl.side = ps then ({ pl with score := pl.score + 1 } :: acc.1, acc.2 + 1)
          else (pl :: acc.1, acc.2))
        ([], 0)

/-- gen_bool(0.5) on one uniform sample: true (Side::Left) iff u < 1/2. -/
def gen_bool (u : ℚ) : Bool :=
  decide (u < 1 / 2)

/-- gen_range(lo..hi) on one uniform sample u ∈ [0, 1). -/
def gen_range (lo hi u : ℚ) : ℚ :=
  lo + u * (hi - lo)

/-- The resampling while loop of ball_first_direction: while cond holds of
the current draw, redraw from gen_range(lo..hi), consuming one sample per
iteration; none when the sample stream runs out mid-loop.  Returns the
accepted draw and the unconsumed samples. -/
def resample_loop (cond : ℚ → Bool) (lo hi d : ℚ) : List ℚ → Option (ℚ × List ℚ)
  | [] => if cond d then none else some (d, [])
  | u :: rest =>
      if cond d then resample_loop cond lo hi (gen_range lo hi u) rest
      else some (d, u :: rest)

/-- ball_first_direction, threading the sample stream: one sample for the
coin flip, one for the first draw of the chosen branch, then the branch's
resampling loop.  The Left branch draws from (-π/3)..(π/3) and loops
while the draw is inside [-0.1, 0.1]; the Right branch draws from
(2π/3)..(4π/3), loops while the draw is inside [π-0.1, π+0.1], and its
loop body redraws from (-π/3)..(π/3) exactly as the source does. -/
def ballFirstDirectionR (pi : ℚ) : List ℚ → Option (ℚ × List ℚ)
  | [] => none
  | s :: rest =>
      match (if gen_bool s then Side.Left else Side.Right) with
      | Side.Left =>
          match rest with
          | [] => none
          | u :: rest2 =>
              resample_loop (fun d => decide (-(1 / 10) ≤ d ∧ d ≤ 1 / 10))
                (-(pi / 3)) (pi / 3) (gen_range (-(pi / 3)) (pi / 3) u) rest2
      | Side.Right =>
          match rest with
          | [] => none
          | u :: rest2 =>
              resample_loop (fun d => decide (pi - 1 / 10 ≤ d ∧ d ≤ pi + 1 / 10))
                (-(pi / 3)) (pi / 3) (gen_range (2 * pi / 3) (4 * pi / 3) u) rest2

/-- ball_first_direction's returned angle alone. -/
def ball_first_direction (pi : ℚ) (rng : List ℚ) : Option ℚ :=
  (ballFirstDirectionR pi rng).map Prod.fst

/-- The reset_ball system processing n pending BallResetEvents in order:
each event zeroes the translation, the starting point and the distance and
draws a fresh initial direction; none when the sample stream runs out. -/
def reset_ball (pi : ℚ) : ℕ → List ℚ → Ball → Option (Ball × List ℚ)
  | 0, rng, b => some (b, rng)
  | n + 1, rng, b =>
      match ballFirstDirectionR pi rng with
      | none => none
      | some (d, rng2) =>
          reset_ball pi n rng2
            { x := 0, y := 0, direction := d, startX := 0, startY := 0, distance := 0 }

/-- check_for_win: the number of AppExit signals sent for the given score
snapshot, one per score that equals 10 exactly. -/
def check_for_win (scores : List ℕ) : ℕ :=
  scores.countP (fun s => decide (s = 10))

/-- One tick of the scoring driver on the (left, right) score pair:
none when nobody scored this tick, some side for an increment by one. -/
def applyPoint : Option Side → ℕ × ℕ → ℕ × ℕ
  | none, s => s
  | some Side.Left, (l, r) => (l + 1, r)
  | some Side.Right, (l, r) => (l, r + 1)

/-- Score pair after a sequence of per-tick scoring events. -/
def scoresAfter (events : List (Option Side)) (s : ℕ × ℕ) : ℕ × ℕ :=
  events.foldl (fun a e => applyPoint e a) s

/-- The session's win check over a run of ticks: the 0-based index of the
tick on which check_for_win first sends a signal (the session then
terminates), or none when the run ends with no win. -/
def runWin : List (Option Side) → ℕ × ℕ → Option ℕ
  | [], _ => none
  | e :: rest, s =>
      if 0 < check_for_win [(applyPoint e s).1, (applyPoint e s).2] then some 0
      else (runWin rest (applyPoint e s)).map (fun n => n + 1)

/-- The total number of AppExit signals a session sends: the session stops
at the first tick whose check fires, so later ticks never run. -/
def sessionFireCount : List (Option Side) → ℕ × ℕ → ℕ
  | [], _ => 0
  | e :: rest, s =>
      if 0 < check_for_win [(applyPoint e s).1, (applyPoint e s).2] then
        check_for_win [(applyPoint e s).1, (applyPoint e s).2]
      else sessionFireCount rest (applyPoint e s)

/-! ## Helper lemmas -/

/-- One paddle tick preserves containment: from |y| + 50 ≤ 350 the moved
and corrected coordinate again satisfies |y| + 50 ≤ 350. -/
theorem move_paddle_y_inv (i : Intent) (y : ℚ) (h : |y| + 50 ≤ 350) :
    |move_paddle_y i y| + 50 ≤ 350 := by
  obtain ⟨h1, h2⟩ := abs_le.mp (show |y| ≤ 300 by linarith)
  have hb : |move_paddle_y i y| ≤ 300 := by
    obtain ⟨up, down⟩ := i
    rw [abs_le]
    cases up <;> cases down <;>
      simp only [move_paddle_y, PADDLE_SPEED, PADDLE_LENGTH, TABLE_SIZE_Y,
        if_true, if_false, Bool.false_eq_true] <;>
      split_ifs <;>
      (constructor <;> linarith)
  linarith

/-- One paddle tick preserves the relaxed bound |y| + 50 ≤ 355. -/
theorem move_paddle_y_inv_relaxed (i : Intent) (y : ℚ) (h : |y| + 50 ≤ 355) :
    |move_paddle_y i y| + 50 ≤ 355 := by
  obtain ⟨h1, h2⟩ := abs_le.mp (show |y| ≤ 305 by linarith)
  have hb : |move_paddle_y i y| ≤ 305 := by
    obtain ⟨up, down⟩ := i
    rw [abs_le]
    cases up <;> cases down <;>
      simp only [move_paddle_y, PADDLE_SPEED, PADDLE_LENGTH, TABLE_SIZE_Y,
        if_true, if_false, Bool.false_eq_true] <;>
      split_ifs <;>
      (constructor <;> linarith)
  linarith

/-- Containment is preserved along any sequence of ticks. -/
theorem run_paddle_inv (intents : List Intent) (y : ℚ) (h : |y| + 50 ≤ 350) :
    |run_paddle intents y| + 50 ≤ 350 := by
  induction intents generalizing y with
  | nil => exact h
  | cons i rest ih => exact ih _ (move_paddle_y_inv i y h)

/-- The relaxed bound is preserved along any sequence of ticks. -/
theorem run_paddle_inv_relaxed (intents : List Intent) (y : ℚ) (h : |y| + 50 ≤ 355) :
    |run_paddle intents y| + 50 ≤ 355 := by
  induction intents generalizing y with
  | nil => exact h
  | cons i rest ih => exact ih _ (move_paddle_y_inv_relaxed i y h)

/-- check_for_win on a two-score snapshot, written out. -/
theorem check_for_win_pair (l r : ℕ) :
    check_for_win [l, r] = (if l = 10 then 1 else 0) + (if r = 10 then 1 else 0) := by
  simp only [check_for_win, List.countP_cons, List.countP_nil, decide_eq_true_eq]
  split_ifs <;> omega

/-- The win check fires on a two-score snapshot iff one score is exactly 10. -/
theorem check_for_win_pos (l r : ℕ) :
    0 < check_for_win [l, r] ↔ (l = 10 ∨ r = 10) := by
  rw [check_for_win_pair]
  split_ifs <;> omega

/-- scoresAfter over a cons. -/
theorem scoresAfter_cons (e : Option Side) (l : List (Option Side)) (s : ℕ × ℕ) :
    scoresAfter (e :: l) s = scoresAfter l (applyPoint e s) := by
  simp [scoresAfter]

/-- runWin finds the first tick whose post-event snapshot holds a 10, and
no earlier tick's snapshot holds one. -/
theorem runWin_sound (events : List (Option Side)) :
    ∀ (s : ℕ × ℕ) (t : ℕ), runWin events s = some t →
      ((scoresAfter (events.take (t + 1)) s).1 = 10 ∨
        (scoresAfter (events.take (t + 1)) s).2 = 10) ∧
      ∀ u < t,
        ¬((scoresAfter (events.take (u + 1)) s).1 = 10 ∨
          (scoresAfter (events.take (u + 1)) s).2 = 10) := by
  induction events with
  | nil => intro s t h; simp [runWin] at h
  | cons e rest ih =>
    intro s t h
    rw [runWin] at h
    by_cases hw : 0 < check_for_win [(applyPoint e s).1, (applyPoint e s).2]
    · rw [if_pos hw] at h
      obtain rfl : (0 : ℕ) = t := Option.some.inj h
      refine ⟨?_, by omega⟩
      simpa [scoresAfter_cons, scoresAfter] using (check_for_win_pos _ _).mp hw
    · rw [if_neg hw] at h
      cases hr : runWin rest (applyPoint e s) with
      | none => rw [hr] at h; simp at h
      | some t0 =>
        rw [hr] at h
        have ht : t0 + 1 = t := by simpa using h
        subst ht
        obtain ⟨hwin, hprev⟩ := ih (applyPoint e s) t0 hr
        constructor
        · simpa [List.take, scoresAfter_cons] using hwin
        · intro u hu
          match u with
          | 0 =>
            simp only [List.take, scoresAfter_cons, scoresAfter, List.foldl]
            intro hcon
            exact hw ((check_for_win_pos _ _).mpr hcon)
          | v + 1 =>
            have hv : v < t0 := by omega
            simpa [List.take, scoresAfter_cons] using hprev v hv

/-- When runWin reports no win, no tick's snapshot holds a 10. -/
theorem runWin_none (events : List (Option Side)) :
    ∀ (s : ℕ × ℕ), runWin events s = none →
      ∀ u < events.length,
        ¬((scoresAfter (events.take (u + 1)) s).1 = 10 ∨
          (scoresAfter (events.take (u + 1)) s).2 = 10) := by
  induction events with
  | nil => intro s _ u hu; simp at hu
  | cons e rest ih =>
    intro s h u hu
    rw [runWin] at h
    by_cases hw : 0 < check_for_win [(applyPoint e s).1, (applyPoint e s).2]
    · rw [if_pos hw] at h; exact absurd h (by simp)
    · rw [if_neg hw] at h
      cases hr : runWin rest (applyPoint e s) with
      | some t0 => rw [hr] at h; simp at h
      | none =>
        match u with
        | 0 =>
          simp only [List.take, scoresAfter_cons, scoresAfter, List.foldl]
          intro hcon
          exact hw ((check_for_win_pos _ _).mpr hcon)
        | v + 1 =>
          have hv : v < rest.length := by simpa using hu
          simpa [List.take, scoresAfter_cons] using ih (applyPoint e s) hr v hv

/-- From a snapshot in which neither score is 10, the session sends at
most one AppExit signal in total. -/
theorem sessionFireCount_le_one (events : List (Option Side)) :
    ∀ (s : ℕ × ℕ), s.1 ≠ 10 → s.2 ≠ 10 → sessionFireCount events s ≤ 1 := by
  induction events with
  | nil => intro s _ _; simp [sessionFireCount]
  | cons e rest ih =>
    intro s h1 h2
    rw [sessionFireCount]
    by_cases hw : 0 < check_for_win [(applyPoint e s).1, (applyPoint e s).2]
    · rw [if_pos hw, check_for_win_pair]
      obtain ⟨l, r⟩ := s
      cases e with
      | none => simp only [applyPoint] at *; split_ifs <;> omega
      | some sd =>
        cases sd <;> simp only [applyPoint] at * <;> split_ifs <;> omega
    · rw [if_neg hw]
      rw [check_for_win_pos] at hw
      push_neg at hw
      exact ih (applyPoint e s) hw.1 hw.2

/-- A gen_range draw on a sample in [0, 1) lands in [lo, hi). -/
theorem gen_range_mem (lo hi u : ℚ) (hu0 : 0 ≤ u) (hu1 : u < 1) (hlh : lo < hi) :
    lo ≤ gen_range lo hi u ∧ gen_range lo hi u < hi := by
  constructor
  · have h := mul_nonneg hu0 (by linarith : (0 : ℚ) ≤ hi - lo)
    rw [gen_range]
    linarith
  · have h := mul_lt_mul_of_pos_right hu1 (by linarith : (0 : ℚ) < hi - lo)
    rw [gen_range]
    linarith

/-- The resampling loop is skipped entirely when the current draw already
fails the loop condition. -/
theorem resample_loop_skip (cond : ℚ → Bool) (lo hi d : ℚ) (rng : List ℚ)
    (h : cond d = false) :
    resample_loop cond lo hi d rng = some (d, rng) := by
  cases rng <;> simp [resample_loop, h]

/-- Whatever the resampling loop returns fails the loop condition, and is
either the initial draw or a fresh gen_range(lo..hi) draw. -/
theorem resample_loop_sound (cond : ℚ → Bool) (lo hi : ℚ) (rng : List ℚ) :
    ∀ (d0 d : ℚ) (rest : List ℚ), (∀ u ∈ rng, 0 ≤ u ∧ u < 1) → lo < hi →
      resample_loop cond lo hi d0 rng = some (d, rest) →
      cond d = false ∧ (d = d0 ∨ (lo ≤ d ∧ d < hi)) := by
  induction rng with
  | nil =>
    intro d0 d rest _ _ h
    by_cases hc : cond d0
    · simp [resample_loop, hc] at h
    · rw [Bool.not_eq_true] at hc
      simp only [resample_loop, hc, Bool.false_eq_true, if_false] at h
      obtain ⟨rfl, rfl⟩ := Prod.mk.injEq .. ▸ Option.some.inj h
      exact ⟨hc, Or.inl rfl⟩
  | cons u tail ih =>
    intro d0 d rest hu hlh h
    by_cases hc : cond d0
    · simp only [resample_loop, hc, if_true] at h
      have hmem := gen_range_mem lo hi u (hu u (by simp)).1 (hu u (by simp)).2 hlh
      have htail : ∀ v ∈ tail, 0 ≤ v ∧ v < 1 := fun v hv => hu v (by simp [hv])
      obtain ⟨hcd, hd⟩ := ih (gen_range lo hi u) d rest htail hlh h
      refine ⟨hcd, Or.inr ?_⟩
      rcases hd with rfl | hd
      · exact hmem
      · exact hd
    · rw [Bool.not_eq_true] at hc
      simp only [resample_loop, hc, Bool.false_eq_true, if_false] at h
      obtain ⟨rfl, rfl⟩ := Prod.mk.injEq .. ▸ Option.some.inj h
      exact ⟨hc, Or.inl rfl⟩

/-- Unfolding the direction generator in its Left branch. -/
theorem ballFirstDirectionR_left (pi s : ℚ) (rest : List ℚ) (hside : gen_bool s = true) :
    ballFirstDirectionR pi (s :: rest) =
      (match rest with
      | [] => none
      | u :: rest2 =>
          resample_loop (fun d => decide (-(1 / 10) ≤ d ∧ d ≤ 1 / 10))
            (-(pi / 3)) (pi / 3) (gen_range (-(pi / 3)) (pi / 3) u) rest2) := by
  rw [ballFirstDirectionR.eq_def]
  simp [hside]

/-- Unfolding the direction generator in its Right branch. -/
theorem ballFirstDirectionR_right (pi s u : ℚ) (rest2 : List ℚ)
    (hside : gen_bool s = false) :
    ballFirstDirectionR pi (s :: u :: rest2) =
      resample_loop (fun d => decide (pi - 1 / 10 ≤ d ∧ d ≤ pi + 1 / 10))
        (-(pi / 3)) (pi / 3) (gen_range (2 * pi / 3) (4 * pi / 3) u) rest2 := by
  rw [ballFirstDirectionR.eq_def]
  simp [hside]

/-- Unfolding reset_ball over one pending event. -/
theorem reset_ball_succ (pi : ℚ) (n : ℕ) (rng : List ℚ) (b : Ball) :
    reset_ball pi (n + 1) rng b =
      match ballFirstDirectionR pi rng with
      | none => none
      | some (d, rng2) => reset_ball pi n rng2 ⟨0, 0, d, 0, 0, 0⟩ := by
  rw [reset_ball]

/-- reset_ball with no pending event leaves the ball untouched. -/
theorem reset_ball_zero (pi : ℚ) (rng : List ℚ) (b : Ball) :
    reset_ball pi 0 rng b = some (b, rng) := rfl

end Pong

namespace Pong

/-! ## Claim theorems -/

/-- C1: for every tick, after the Ball Motion Step runs, the ball's
position equals bounce_origin + distance_since_bounce * (cos direction,
sin direction), where distance_since_bounce was first incremented by the
fixed ball-speed constant 6; the direction and the bounce origin are left
unchanged. -/
theorem move_ball_parametric (cosf sinf : ℚ → ℚ) (b : Ball) :
    (move_ball cosf sinf b).distance = b.distance + 6 ∧
    (move_ball cosf sinf b).x =
      b.startX + cosf b.direction * (b.distance + 6) ∧
    (move_ball cosf sinf b).y =
      b.startY + sinf b.direction * (b.distance + 6) ∧
    (move_ball cosf sinf b).direction = b.direction ∧
    (move_ball cosf sinf b).startX = b.startX ∧
    (move_ball cosf sinf b).startY = b.startY := by
  refine ⟨?_, ?_, ?_, rfl, rfl, rfl⟩ <;>
    simp [move_ball, BALL_SPEED]

/-- C10: the collision system never changes the ball's translation:
whether or not a collision is found, the post-motion position survives. -/
theorem collision_system_preserves_position (pi : ℚ) (b : Ball) (ps : List Paddle) :
    (collision_system pi b ps).x = b.x ∧ (collision_system pi b ps).y = b.y := by
  cases h : detectCollision b ps <;> simp [collision_system, h]

/-- C6: a paddle that starts at the setup position y = 0 satisfies
|y| + paddle_half_length ≤ arena_half_height, that is |y| + 50 ≤ 350,
after every tick of every input sequence. -/
theorem paddle_contained (intents : List Intent) :
    |run_paddle intents 0| + 50 ≤ 350 :=
  run_paddle_inv intents 0 (by norm_num)

/-- C7: from any start within the relaxed bound, after every tick of every
input sequence, |y| + paddle_half_length ≤ arena_half_height + speed,
that is |y| + 50 ≤ 355: the overshoot-then-correct policy never diverges. -/
theorem paddle_contained_relaxed (y0 : ℚ) (intents : List Intent)
    (h : |y0| + 50 ≤ 355) :
    |run_paddle intents y0| + 50 ≤ 355 :=
  run_paddle_inv_relaxed intents y0 h

/-- C7 witness: the bound discharged at y0 = 303 with one MoveUp tick. -/
theorem paddle_contained_relaxed_witness :
    |(303 : ℚ)| + 50 ≤ 355 ∧
      |run_paddle [⟨true, false⟩] 303| + 50 ≤ 355 :=
  ⟨by norm_num, paddle_contained_relaxed 303 [⟨true, false⟩] (by norm_num)⟩

/-- C2: on any tick on which the collision system finds a collision, the
ball's direction becomes 2π − θ for Top/Bottom and π − θ for Left/Right
with no angle normalization, the bounce origin becomes the current
post-motion translation, and the distance becomes 0. -/
theorem collision_updates_ball (pi : ℚ) (b : Ball) (ps : List Paddle)
    (c : Collision) (h : detectCollision b ps = some c) :
    ((c = Collision.Top ∨ c = Collision.Bottom) →
      (collision_system pi b ps).direction = 2 * pi - b.direction) ∧
    ((c = Collision.Left ∨ c = Collision.Right) →
      (collision_system pi b ps).direction = pi - b.direction) ∧
    (collision_system pi b ps).startX = b.x ∧
    (collision_system pi b ps).startY = b.y ∧
    (collision_system pi b ps).distance = 0 := by
  refine ⟨?_, ?_, ?_, ?_, ?_⟩ <;>
    simp only [collision_system, h] <;>
    first
    | rfl
    | (rintro (rfl | rfl) <;> rfl)

/-- C2 witness: a ball touching the top wall at (0, 340), no paddles. -/
theorem collision_updates_ball_witness :
    detectCollision ⟨0, 340, 1, 0, 0, 60⟩ [] = some Collision.Top ∧
      (collision_system 3 ⟨0, 340, 1, 0, 0, 60⟩ []).direction = 2 * 3 - 1 ∧
      (collision_system 3 ⟨0, 340, 1, 0, 0, 60⟩ []).distance = 0 := by
  have h : detectCollision ⟨0, 340, 1, 0, 0, 60⟩ [] = some Collision.Top := by
    norm_num [detectCollision, TABLE_SIZE_Y, BALL_RADIUS]
  have hc := collision_updates_ball 3 ⟨0, 340, 1, 0, 0, 60⟩ [] Collision.Top h
  exact ⟨h, hc.1 (Or.inl rfl), hc.2.2.2.2⟩

/-- C3: collision detection is the ordered decision list of the source:
the top-wall test first, the bottom-wall test second, the paddle loop only
when neither wall test matched, and the paddle loop breaks (keeping the
running collision value, skipping every remaining paddle) as soon as the
ball is past one paddle's far x edge. -/
theorem collision_detection_order :
    (∀ (b : Ball) (ps : List Paddle),
      b.y + BALL_RADIUS ≥ TABLE_SIZE_Y / 2 →
        detectCollision b ps = some Collision.Top) ∧
    (∀ (b : Ball) (ps : List Paddle),
      ¬(b.y + BALL_RADIUS ≥ TABLE_SIZE_Y / 2) →
      b.y - BALL_RADIUS ≤ -(TABLE_SIZE_Y / 2) →
        detectCollision b ps = some Collision.Bottom) ∧
    (∀ (b : Ball) (ps : List Paddle),
      ¬(b.y + BALL_RADIUS ≥ TABLE_SIZE_Y / 2) →
      ¬(b.y - BALL_RADIUS ≤ -(TABLE_SIZE_Y / 2)) →
        detectCollision b ps = paddleScan b ps none) ∧
    (∀ (b : Ball) (p : Paddle) (rest : List Paddle) (col : Option Collision),
      pastPaddle b p = true →
        paddleScan b (p :: rest) col = col) := by
  refine ⟨?_, ?_, ?_, ?_⟩
  · intro b ps h
    simp [detectCollision, h]
  · intro b ps h1 h2
    simp [detectCollision, h1, h2]
  · intro b ps h1 h2
    simp [detectCollision, h1, h2]
  · intro b p rest col h
    simp [paddleScan, h]

/-- C4: with the game's two players, a point is awarded iff the ball
crosses a goal line at the half-radius threshold, to the side labelled
like the crossed edge: the right edge gives Side::Right one point, the
left edge gives Side::Left one point, and each point sends exactly one
BallResetEvent; otherwise nothing changes and no event is sent. -/
theorem score_attribution (x : ℚ) (ls rs : ℕ) :
    (x + BALL_RADIUS / 2 ≥ TABLE_SIZE_X / 2 →
      score_system x [⟨Side.Left, ls⟩, ⟨Side.Right, rs⟩] =
        ([⟨Side.Left, ls⟩, ⟨Side.Right, rs + 1⟩], 1)) ∧
    (¬(x + BALL_RADIUS / 2 ≥ TABLE_SIZE_X / 2) →
      x - BALL_RADIUS / 2 ≤ 0 - TABLE_SIZE_X / 2 →
      score_system x [⟨Side.Left, ls⟩, ⟨Side.Right, rs⟩] =
        ([⟨Side.Left, ls + 1⟩, ⟨Side.Right, rs⟩], 1)) ∧
    (¬(x + BALL_RADIUS / 2 ≥ TABLE_SIZE_X / 2) →
      ¬(x - BALL_RADIUS / 2 ≤ 0 - TABLE_SIZE_X / 2) →
      score_system x [⟨Side.Left, ls⟩, ⟨Side.Right, rs⟩] =
        ([⟨Side.Left, ls⟩, ⟨Side.Right, rs⟩], 0)) := by
  refine ⟨fun h1 => ?_, fun h1 h2 => ?_, fun h1 h2 => ?_⟩
  · simp only [score_system, point_side, if_pos h1]
    simp
  · simp only [score_system, point_side, if_neg h1, if_pos h2]
    simp
  · simp only [score_system, point_side, if_neg h1, if_neg h2]

/-- C5: the win check sends a signal iff one side's score equals exactly
10 (equality, not ≥); along a session of increment-by-one scoring events
from (0, 0), the signal first fires on the tick the score becomes 10 and
on no earlier tick, a run that never reaches 10 never fires, and the
session sends at most one signal in total. -/
theorem win_check_exact :
    (∀ l r : ℕ, 0 < check_for_win [l, r] ↔ (l = 10 ∨ r = 10)) ∧
    (∀ (events : List (Option Side)) (t : ℕ), runWin events (0, 0) = some t →
      ((scoresAfter (events.take (t + 1)) (0, 0)).1 = 10 ∨
        (scoresAfter (events.take (t + 1)) (0, 0)).2 = 10) ∧
      ∀ u < t,
        ¬((scoresAfter (events.take (u + 1)) (0, 0)).1 = 10 ∨
          (scoresAfter (events.take (u + 1)) (0, 0)).2 = 10)) ∧
    (∀ events : List (Option Side), runWin events (0, 0) = none →
      ∀ u < events.length,
        ¬((scoresAfter (events.take (u + 1)) (0, 0)).1 = 10 ∨
          (scoresAfter (events.take (u + 1)) (0, 0)).2 = 10)) ∧
    (∀ events : List (Option Side), sessionFireCount events (0, 0) ≤ 1) :=
  ⟨check_for_win_pos,
   fun events t h => runWin_sound events (0, 0) t h,
   fun events h => runWin_none events (0, 0) h,
   fun events => sessionFireCount_le_one events (0, 0) (by omega) (by omega)⟩

/-- C8: over any stream of uniform samples, the Left branch of the
initial-direction generator returns a draw from gen_range((-π/3)..(π/3))
that lies outside the band [-0.1, 0.1], resampling from that same range
until outside the band; the Right branch returns its first draw from
gen_range((2π/3)..(4π/3)) when that draw is outside [π-0.1, π+0.1], and
otherwise resamples from the Left branch's range (-π/3)..(π/3), never
again from (2π/3)..(4π/3). -/
theorem ball_first_direction_branches (pi : ℚ) (rng : List ℚ) (d : ℚ)
    (hpi : 0 < pi) (hu : ∀ u ∈ rng, 0 ≤ u ∧ u < 1)
    (h : ball_first_direction pi rng = some d) :
    (∀ s rest, rng = s :: rest → gen_bool s = true →
      (-(pi / 3) ≤ d ∧ d < pi / 3) ∧ ¬(-(1 / 10) ≤ d ∧ d ≤ 1 / 10)) ∧
    (∀ s u rest2, rng = s :: u :: rest2 → gen_bool s = false →
      (¬(pi - 1 / 10 ≤ gen_range (2 * pi / 3) (4 * pi / 3) u ∧
          gen_range (2 * pi / 3) (4 * pi / 3) u ≤ pi + 1 / 10) →
        d = gen_range (2 * pi / 3) (4 * pi / 3) u ∧
          2 * pi / 3 ≤ d ∧ d < 4 * pi / 3) ∧
      ((pi - 1 / 10 ≤ gen_range (2 * pi / 3) (4 * pi / 3) u ∧
          gen_range (2 * pi / 3) (4 * pi / 3) u ≤ pi + 1 / 10) →
        (-(pi / 3) ≤ d ∧ d < pi / 3) ∧ ¬(pi - 1 / 10 ≤ d ∧ d ≤ pi + 1 / 10))) := by
  cases hR : ballFirstDirectionR pi rng with
  | none => rw [ball_first_direction, hR] at h; simp at h
  | some pr =>
    obtain ⟨d0, rest0⟩ := pr
    rw [ball_first_direction, hR] at h
    simp only [Option.map] at h
    have hd0 : d0 = d := Option.some.inj h
    rw [hd0] at hR
    constructor
    · intro s rest hrng hside
      subst hrng
      rw [ballFirstDirectionR_left pi s rest hside] at hR
      cases rest with
      | nil => simp at hR
      | cons u rest2 =>
        have hlh : -(pi / 3) < pi / 3 := by linarith
        have hu2 : ∀ v ∈ rest2, 0 ≤ v ∧ v < 1 := fun v hv => hu v (by simp [hv])
        obtain ⟨hcd, hd⟩ :=
          resample_loop_sound _ (-(pi / 3)) (pi / 3) rest2 _ d rest0 hu2 hlh hR
        have hmem := gen_range_mem (-(pi / 3)) (pi / 3) u
          (hu u (by simp)).1 (hu u (by simp)).2 hlh
        refine ⟨?_, of_decide_eq_false hcd⟩
        rcases hd with rfl | hd
        · exact hmem
        · exact hd
    · intro s u rest2 hrng hside
      subst hrng
      rw [ballFirstDirectionR_right pi s u rest2 hside] at hR
      have hlh : -(pi / 3) < pi / 3 := by linarith
      have hrr : 2 * pi / 3 < 4 * pi / 3 := by linarith
      have hu2 : ∀ v ∈ rest2, 0 ≤ v ∧ v < 1 := fun v hv => hu v (by simp [hv])
      have hmem := gen_range_mem (2 * pi / 3) (4 * pi / 3) u
        (hu u (by simp)).1 (hu u (by simp)).2 hrr
      constructor
      · intro hnb
        rw [resample_loop_skip _ _ _ _ _ (decide_eq_false hnb)] at hR
        obtain rfl : gen_range (2 * pi / 3) (4 * pi / 3) u = d :=
          congrArg Prod.fst (Option.some.inj hR)
        exact ⟨rfl, hmem⟩
      · intro hb
        obtain ⟨hcd, hd⟩ :=
          resample_loop_sound _ (-(pi / 3)) (pi / 3) rest2 _ d rest0 hu2 hlh hR
        refine ⟨?_, of_decide_eq_false hcd⟩
        rcases hd with rfl | hd
        · exact absurd hb (of_decide_eq_false hcd)
        · exact hd

/-- C8 witness: pi = 3 and the sample stream [0, 3/4]: the coin flip
picks Left, the draw from gen_range((-1)..1) on sample 3/4 is 1/2,
outside the excluded band, so the generator returns 1/2. -/
theorem ball_first_direction_branches_witness :
    ball_first_direction 3 [0, 3 / 4] = some (1 / 2) ∧
    ((-(3 / 3 : ℚ) ≤ 1 / 2 ∧ (1 / 2 : ℚ) < 3 / 3) ∧
      ¬(-(1 / 10 : ℚ) ≤ 1 / 2 ∧ (1 / 2 : ℚ) ≤ 1 / 10)) := by
  have heval : ball_first_direction 3 [0, 3 / 4] = some (1 / 2) := by
    norm_num [ball_first_direction, ballFirstDirectionR, gen_bool, gen_range, resample_loop]
  refine ⟨heval, ?_⟩
  have hu : ∀ u ∈ ([0, 3 / 4] : List ℚ), 0 ≤ u ∧ u < 1 := by
    intro u hu
    rcases List.mem_cons.mp hu with rfl | hu2
    · norm_num
    · rcases List.mem_singleton.mp hu2 with rfl
      norm_num
  exact (ball_first_direction_branches 3 [0, 3 / 4] (1 / 2) (by norm_num) hu heval).1
    0 [3 / 4] rfl (by norm_num [gen_bool])

/-- C9: processing one or more pending reset events fully reinitializes
the ball: translation (0,0), bounce origin (0,0), distance 0, and a
direction freshly drawn by ball_first_direction; with several events the
surviving state is exactly that of a single (the last) reset, independent
of every earlier state. -/
theorem reset_ball_reinitializes (pi : ℚ) (n : ℕ) (rng : List ℚ) (b c : Ball)
    (rngOut : List ℚ) (h : reset_ball pi (n + 1) rng b = some (c, rngOut)) :
    c.x = 0 ∧ c.y = 0 ∧ c.startX = 0 ∧ c.startY = 0 ∧ c.distance = 0 ∧
    ∃ rngLast rest, ballFirstDirectionR pi rngLast = some (c.direction, rest) ∧
      ∀ b' : Ball, reset_ball pi 1 rngLast b' = some (c, rngOut) := by
  induction n generalizing rng b with
  | zero =>
    rw [reset_ball_succ] at h
    cases hdraw : ballFirstDirectionR pi rng with
    | none => rw [hdraw] at h; simp at h
    | some pr =>
      obtain ⟨d, rng2⟩ := pr
      rw [hdraw] at h
      simp only [reset_ball_zero] at h
      obtain ⟨rfl, rfl⟩ := Prod.mk.injEq .. ▸ Option.some.inj h
      refine ⟨rfl, rfl, rfl, rfl, rfl, rng, rng2, hdraw, ?_⟩
      intro b'
      rw [reset_ball_succ, hdraw]
      rfl
  | succ m ih =>
    rw [reset_ball_succ] at h
    cases hdraw : ballFirstDirectionR pi rng with
    | none => rw [hdraw] at h; simp at h
    | some pr =>
      obtain ⟨d, rng2⟩ := pr
      rw [hdraw] at h
      exact ih rng2 _ h

/-- C9 witness: one pending reset on the stream [3/4, 0] (coin flip picks
Right, draw 2 accepted) reinitializes an arbitrary dirty ball. -/
theorem reset_ball_reinitializes_witness :
    reset_ball 3 1 [3 / 4, 0] ⟨1, 2, 3, 4, 5, 6⟩ =
      some (⟨0, 0, 2, 0, 0, 0⟩, []) ∧
    ((⟨0, 0, 2, 0, 0, 0⟩ : Ball).x = 0 ∧ (⟨0, 0, 2, 0, 0, 0⟩ : Ball).y = 0 ∧
      (⟨0, 0, 2, 0, 0, 0⟩ : Ball).startX = 0 ∧ (⟨0, 0, 2, 0, 0, 0⟩ : Ball).startY = 0 ∧
      (⟨0, 0, 2, 0, 0, 0⟩ : Ball).distance = 0 ∧
      ∃ rngLast rest,
        ballFirstDirectionR 3 rngLast = some ((⟨0, 0, 2, 0, 0, 0⟩ : Ball).direction, rest) ∧
        ∀ b' : Ball, reset_ball 3 1 rngLast b' = some (⟨0, 0, 2, 0, 0, 0⟩, [])) := by
  have heval : reset_ball 3 1 [3 / 4, 0] ⟨1, 2, 3, 4, 5, 6⟩ =
      some (⟨0, 0, 2, 0, 0, 0⟩, []) := by
    norm_num [reset_ball, ballFirstDirectionR, gen_bool, gen_range, resample_loop]
  exact ⟨heval,
    reset_ball_reinitializes 3 0 [3 / 4, 0] ⟨1, 2, 3, 4, 5, 6⟩ ⟨0, 0, 2, 0, 0, 0⟩ [] heval⟩

end Pong
